import Mathlib

/-!
# Verification of `code/mfmodell/modell_new.py`

A shallow embedding, in Lean 4, of the mod-ℓ reduction engine for modular-form
newforms (`modell_new.py`), together with theorems settling the behavioural
claims about it.

Modelling conventions:

* `GF(ell)` is modelled as `ZMod ell`; exact integers as `Int`/`Nat`.
* Sage/LMFDB library calls (`FiniteDimensionalAlgebra.maximal_ideals`,
  `right_kernel`, database queries) are external to the repository; where a
  repository function consumes their output, that output is a parameter of the
  embedded function (e.g. the candidate kernel-basis vectors `vv` computed by
  Sage in lines 99-117 of `reduction_maps` are the input of the embedded
  `reduction_maps`, which models the repository's own post-processing,
  lines 119-142).
* Python exceptions (`ValueError`, `AssertionError`, `TypeError`, `IndexError`)
  are modelled with `Except String`; an uncaught exception propagates through
  `bind`, exactly as an exception propagates through Python callers that have
  no `try`/`except`.
-/

/-! ## `char_order_valid` (lines 22-27)

`ZZ(m).prime_to_m_part(ell)` is a Sage library call returning the largest
divisor of `m` coprime to `ell`; for a prime modulus `ell` (the only use in
this program: `ell` ranges over primes) this is `m` with all factors of `ell`
divided out.  `prime_to_part_fuel` implements that by repeated division, with
a structural fuel argument (`m` itself bounds the number of divisions). -/

def prime_to_part_fuel : Nat → Nat → Nat → Nat
  | 0, m, _ => m
  | fuel + 1, m, ell =>
    if 2 ≤ ell ∧ ell ∣ m ∧ 0 < m then prime_to_part_fuel fuel (m / ell) ell else m

def prime_to_m_part (m ell : Nat) : Nat := prime_to_part_fuel m m ell

/-- Line 22-27: `char_order_valid(m, ell)` returns
`ZZ(m).prime_to_m_part(ell).divides(ell-1)`. -/
def char_order_valid (m ell : Nat) : Bool := decide (prime_to_m_part m ell ∣ ell - 1)

/-! ## `primes_first_n` (Sage library)

`primes_first_n(n)` returns the first `n` primes in ascending order.  It is a
Sage library function used by `reduce_ap_mod_ell`; we model it from its
documented semantics with an executable definition: `next_prime_from fuel k`
scans upwards from `k` for the first prime (the fuel `k + 3` always suffices,
by Bertrand's postulate, as proved below). -/

def next_prime_from : Nat → Nat → Nat
  | 0, k => k
  | fuel + 1, k => if Nat.Prime k then k else next_prime_from fuel (k + 1)

def primes_from : Nat → Nat → List Nat
  | 0, _ => []
  | n + 1, k =>
    let p := next_prime_from (k + 3) k
    p :: primes_from n (p + 1)

def primes_first_n (n : Nat) : List Nat := primes_from n 2

/-- Decidable equality for `Except`, used to evaluate the embedded fallible
functions on concrete inputs. -/
instance {ε α : Type _} [DecidableEq ε] [DecidableEq α] : DecidableEq (Except ε α) :=
  fun x y =>
  match x, y with
  | Except.ok a, Except.ok b =>
    if h : a = b then isTrue (congrArg Except.ok h)
    else isFalse (fun hh => h (Except.ok.inj hh))
  | Except.error a, Except.error b =>
    if h : a = b then isTrue (congrArg Except.error h)
    else isFalse (fun hh => h (Except.error.inj hh))
  | Except.ok _, Except.error _ => isFalse (fun hh => Except.noConfusion hh)
  | Except.error _, Except.ok _ => isFalse (fun hh => Except.noConfusion hh)

/-- Left-to-right effectful map over a list, propagating the first raised
exception — the evaluation order of a Python list/dict comprehension or
`for` loop whose body may raise. -/
def mapExcept {α β : Type _} (f : α → Except String β) : List α → Except String (List β)
  | [] => Except.ok []
  | x :: xs => (f x).bind (fun y => (mapExcept f xs).map (fun ys => y :: ys))

/-! ## `reduction_maps`, post-processing of the kernel vectors (lines 119-142)

The input `vv` is the list of candidate kernel-basis vectors produced by the
Sage computation of lines 99-117 (one vector for each maximal ideal of the
structure-constant algebra whose basis matrix has rank `d-1`).

The Python loop is

```
for v in vv:
    if v[0]!=1:
        if v[0]==0:
            raise ValueError(...)
        v0inv = 1/v[0]
        v = [vi*v0inv for vi in v]
return vv
```

Note that `v = [vi*v0inv for vi in v]` rebinds the loop-local name `v`; the
rescaled list is never written back into `vv`, so the element of `vv` is
returned unchanged.  `rescale_check` embeds one iteration of the loop: it
raises for `v[0] = 0`, and otherwise returns the element of `vv` as the
Python code actually leaves it (unscaled). -/

def rescale_check {ell : Nat} (v : List (ZMod ell)) : Except String (List (ZMod ell)) :=
  match v.head? with
  | none => Except.error "IndexError: list index out of range"
  | some v0 =>
    if v0 = 1 then Except.ok v
    else if v0 = 0 then Except.error "reduction map maps 1 to 0"
    else
      -- line 132-133 compute `v0inv = 1/v[0]` and the rescaled copy
      -- `[vi*v0inv for vi in v]`, but the copy is bound to the loop-local
      -- name and discarded; `vv` keeps the original vector.
      Except.ok v

/-- Lines 119-142 of `reduction_maps`: iterate the check over all candidate
vectors and return `vv`. -/
def reduction_maps {ell : Nat} (vv : List (List (ZMod ell))) :
    Except String (List (List (ZMod ell))) :=
  mapExcept rescale_check vv

/-! ## Newforms and reduction maps -/

/-- A reduction map as the Python program represents it dynamically: either a
function (the `lambda elt: Fl(QQ(elt))` returned by the `K == QQ` branch of
`make_reductions`, line 164) or a vector of `d` elements of `GF(ell)` (the
representation produced by `reduction_maps` and expected by `apply_red`). -/
inductive RedMap (ell : Nat) where
  | fn (f : Int → ZMod ell)
  | vec (v : List (ZMod ell))

/-- The attributes of a `WebNewform` that `modell_new.py` reads.  `candidates`
is the oracle input standing for the kernel-basis vectors that the Sage
computation of `reduction_maps` (lines 99-117) derives from the order basis
`betas`; `field_poly = none` models `field_poly == None`. -/
structure NF (ell : Nat) where
  label : String
  level : Nat
  weight : Nat
  dim : Nat
  char_order : Nat
  field_poly : Option (List Int)
  hecke_ring_cyclotomic_generator : Nat
  heckeFieldIsQQ : Bool
  hecke_ring_character_values : List (Nat × List Int)
  candidates : List (List (ZMod ell))
  ap : List (List Int)

/-- Lines 147-180, `make_reductions(nf, ell)`: the `K == QQ` branch returns a
single lambda; otherwise the cyclotomic-generator case is rejected by an
`assert`, and the general case delegates to `reduction_maps`. -/
def make_reductions {ell : Nat} (nf : NF ell) : Except String (List (RedMap ell)) :=
  if nf.heckeFieldIsQQ then
    Except.ok [RedMap.fn (fun elt => (elt : ZMod ell))]
  else if nf.hecke_ring_cyclotomic_generator ≠ 0 then
    Except.error "AssertionError: nonzero hecke_ring_cyclotomic_generator"
  else
    (reduction_maps nf.candidates).map (fun vv => vv.map RedMap.vec)

/-! ## `apply_red` (lines 182-199)

```
Fl = red[0].parent()
return Fl(sum([ci*ri for ci,ri in zip(coeffs,red)]))
```

`red[0]` on an empty list raises `IndexError`; Python `zip` silently truncates
to the shorter of the two lists. -/

def apply_red {ell : Nat} (coeffs : List Int) (red : List (ZMod ell)) :
    Except String (ZMod ell) :=
  match red with
  | [] => Except.error "IndexError: list index out of range"
  | _ :: _ => Except.ok (((coeffs.zip red).map (fun cr => (cr.1 : ZMod ell) * cr.2)).sum)

/-- `apply_red` as it is reached dynamically from `reduce_ap_mod_ell`: when the
reduction map is the lambda produced by the `K == QQ` branch of
`make_reductions`, the subscript `red[0]` in line 198 is applied to a function
object and raises `TypeError`. -/
def apply_red_dyn {ell : Nat} (coeffs : List Int) (red : RedMap ell) :
    Except String (ZMod ell) :=
  match red with
  | RedMap.fn _ => Except.error "TypeError: function object is not subscriptable"
  | RedMap.vec v => apply_red coeffs v

/-- The mathematical dot product of an integer vector and a `GF(ell)` vector,
truncated to the common length; used as the specification that `apply_red`
is compared against. -/
def dotTrunc {ell : Nat} : List Int → List (ZMod ell) → ZMod ell
  | _, [] => 0
  | [], _ :: _ => 0
  | c :: cs, r :: rs => (c : ZMod ell) * r + dotTrunc cs rs

/-! ## `reduce_ap_mod_ell` (lines 210-222) and `reduce_chi_mod_ell` (224-240) -/

/-- Line 222:
`dict([(p, apply_red(nf.ap[i], red)) for i,p in enumerate(primes_first_n(len(nf.ap)))])`.
The dict, whose keys are inserted in ascending prime order, is modelled as the
association list pairing the first `len(nf.ap)` primes with the reduced
coefficients. -/
def reduce_ap_mod_ell {ell : Nat} (nf : NF ell) (red : RedMap ell) :
    Except String (List (Nat × ZMod ell)) :=
  mapExcept (fun pa => (apply_red_dyn pa.2 red).map (fun x => (pa.1, x)))
    ((primes_first_n nf.ap.length).zip nf.ap)

/-- Lines 224-240: empty list for trivial character, otherwise
`[[a, apply_red(coeffs, red)] for a, coeffs in nf.hecke_ring_character_values]`. -/
def reduce_chi_mod_ell {ell : Nat} (nf : NF ell) (red : RedMap ell) :
    Except String (List (Nat × ZMod ell)) :=
  if nf.char_order = 1 then Except.ok []
  else mapExcept (fun ac => (apply_red_dyn ac.2 red).map (fun x => (ac.1, x)))
    nf.hecke_ring_character_values

/-! ## Newform-mod-ell records (lines 327-348, 425-477)

`nf_mod_ell` builds a dict with keys `label, N, k, d, ap, chi_mod_ell`; `run`
then adds `ell` and `index`.  The record is modelled as one structure carrying
all of these fields.  The `GF(ell)` values stored in the dict are recorded by
their canonical representatives (`ZMod.val`), which is how they print and how
they compare within a fixed `ell`. -/

structure NFRecord where
  label : String
  N : Nat
  k : Nat
  d : Nat
  ap : List (Nat × Nat)
  chi_mod_ell : List (Nat × Nat)
  ell : Nat
  index : Nat
  deriving DecidableEq

/-- Canonical-representative view of an association list of `GF(ell)` values,
used to store `reduce_ap_mod_ell` output inside an `NFRecord`. -/
def toNatPairs {ell : Nat} (l : List (Nat × ZMod ell)) : List (Nat × Nat) :=
  l.map (fun pv => (pv.1, pv.2.val))

/-- Lines 327-342, `nf_mod_ell(nf, red)`: the output dict (the `ell` and
`index` fields are filled in later by `run`; they are initialised to 0
here). -/
def nf_mod_ell {ell : Nat} (nf : NF ell) (red : RedMap ell) : Except String NFRecord :=
  (reduce_ap_mod_ell nf red).bind (fun appairs =>
    (reduce_chi_mod_ell nf red).map (fun chipairs =>
      { label := nf.label, N := nf.level, k := nf.weight, d := nf.dim,
        ap := toNatPairs appairs, chi_mod_ell := toNatPairs chipairs,
        ell := 0, index := 0 }))

/-- Lines 344-348, `compare_record(nf1, nf2)`:
`(nf1['ell'] == nf2['ell']) and (nf1['ap'] == nf2['ap'])`. -/
def compare_record (nf1 nf2 : NFRecord) : Bool :=
  decide (nf1.ell = nf2.ell) && decide (nf1.ap = nf2.ap)

/-- Lines 457-466 of `run`, the per-`ell` deduplication loop: for each new
record count the matching previously-accumulated records (`n_previous`),
increment the distinct count `nnf` when there is no match, set the record's
`index` to `n_previous + 1` and append it.  Arguments: the remaining stream of
records, the accumulated list `nf[ell]`, and the distinct count `nnf[ell]`. -/
def run_dedup : List NFRecord → List NFRecord → Nat → (List NFRecord × Nat)
  | [], acc, nnf => (acc, nnf)
  | r :: rs, acc, nnf =>
    let n_previous := acc.countP (fun s => compare_record r s)
    run_dedup rs (acc ++ [{ r with index := n_previous + 1 }])
      (if n_previous = 0 then nnf + 1 else nnf)

/-- Specification form of the accumulation in `run_dedup`: each record's index
is one plus the number of matching records among everything accumulated so
far (`prev`). -/
def assignIndices (prev : List NFRecord) : List NFRecord → List NFRecord
  | [] => []
  | r :: rs =>
    let r' : NFRecord := { r with index := (prev.countP (fun s => compare_record r s)) + 1 }
    r' :: assignIndices (prev ++ [r']) rs

/-! ## `get_forms` (lines 250-319) and the sweep of `run` (lines 425-477) -/

/-- Lines 250-319, `get_forms(N, k, ell)`.  The database query for the forms
of level `N` and weight `k` is the parameter `forms0`; the rest follows the
source: return `([], [])` at once when `ell` divides `N`; filter by
`char_order_valid`; split off the forms with no stored Hecke field (the
deferred `(label, dim, ell)` triples); compute the reductions of the remaining
forms (`make_reductions` can raise, and `get_forms` does not catch); keep the
forms with at least one reduction. -/
def get_forms {ell : Nat} (N k : Nat) (forms0 : List (NF ell)) :
    Except String (List (NF ell × List (RedMap ell)) × List (String × Nat × Nat)) :=
  if N % ell = 0 then Except.ok ([], [])
  else
    let forms1 := forms0.filter (fun f => char_order_valid f.char_order ell)
    let forms_with_no_field :=
      (forms1.filter (fun f => f.field_poly.isNone)).map (fun f => (f.label, f.dim, ell))
    let forms2 := forms1.filter (fun f => f.field_poly.isSome)
    (mapExcept (fun f => (make_reductions f).map (fun rr => (f, rr))) forms2).map
      (fun withReds => (withReds.filter (fun p => !p.2.isEmpty), forms_with_no_field))

/-- The `(k, N)` loop of `run` (lines 445-477) for one prime `ell`: process the
`(k, N)` triples in order, calling `get_forms` on the forms the database
returns for each triple (`db`), and accumulate the processed and deferred
forms.  `run` wraps no `try`/`except` around the body, so an exception raised
while processing one form propagates out through the monadic bind and aborts
the whole sweep, exactly as in Python.  (The per-record bookkeeping done with
each processed form is `run_dedup` above; it is irrelevant to the control
flow modelled here.) -/
def run_sweep {ell : Nat} (triples : List (Nat × Nat)) (db : Nat × Nat → List (NF ell)) :
    Except String (List (NF ell × List (RedMap ell)) × List (String × Nat × Nat)) :=
  match triples with
  | [] => Except.ok ([], [])
  | t :: rest =>
    (get_forms t.2 t.1 (db t)).bind (fun pair =>
      (run_sweep rest db).map (fun acc => (pair.1 ++ acc.1, pair.2 ++ acc.2)))

/-! ## `nf_to_string` (lines 350-381)

String helpers modelling the Python operations used there:
`label.split(".")`, `sorted(dict.keys())`, dict indexing, `":".join(...)`,
and `str(list).replace(" ","")`. -/

/-- Python `label.split(".")` on the character list (split on every dot,
keeping empty parts). -/
def splitAux : List Char → List (List Char)
  | [] => [[]]
  | c :: cs =>
    match splitAux cs with
    | [] => [[c]]
    | h :: t => if c = '.' then [] :: h :: t else (c :: h) :: t

def splitOnDot (s : String) : List String := (splitAux s.data).map (fun l => String.mk l)

/-- Ascending insertion used to model Python `sorted` on the dict keys. -/
def insertAsc (x : Nat) : List Nat → List Nat
  | [] => [x]
  | y :: ys => if x ≤ y then x :: y :: ys else y :: insertAsc x ys

def sortAsc (l : List Nat) : List Nat := l.foldr insertAsc []

/-- Python dict indexing `d[p]` on the association-list model. -/
def dictLookup (p : Nat) : List (Nat × Nat) → Option Nat
  | [] => none
  | kv :: t => if kv.1 = p then some kv.2 else dictLookup p t

/-- Python `sep.join(parts)`. -/
def joinSep (sep : String) : List String → String
  | [] => ""
  | [x] => x
  | x :: y :: t => x ++ sep ++ joinSep sep (y :: t)

/-- Python `str(chi_mod_ell).replace(" ","")` for the list of
`[generator, value]` pairs. -/
def chiString (l : List (Nat × Nat)) : String :=
  "[" ++ joinSep "," (l.map (fun av => "[" ++ Nat.repr av.1 ++ "," ++ Nat.repr av.2 ++ "]")) ++ "]"

/-- Lines 350-381, `nf_to_string(nfr, nap)`: unpack the label into its four
dot-separated parts (raising `ValueError` otherwise, as Python tuple
unpacking does), list the reduced `ap` in ascending order of the prime keys,
truncate to `nap` values when `nap` is given, truthy and smaller than the
list length, and join the ten fields with `":"`. -/
def nf_to_string (nfr : NFRecord) (nap : Option Nat) : Except String String :=
  match splitOnDot nfr.label with
  | [n, k, c, i] =>
    let ell := Nat.repr nfr.ell
    let aplist0 := (sortAsc (nfr.ap.map Prod.fst)).filterMap (fun p => dictLookup p nfr.ap)
    let aplist :=
      match nap with
      | some m => if m ≠ 0 ∧ m < aplist0.length then aplist0.take m else aplist0
      | none => aplist0
    let ap := joinSep "," (aplist.map Nat.repr)
    let index := Nat.repr nfr.index
    let dim := Nat.repr nfr.d
    let chi := chiString nfr.chi_mod_ell
    Except.ok (joinSep ":" [nfr.label, n, k, c, i, dim, ell, index, chi, ap])
  | _ => Except.error "ValueError: not enough values to unpack"

/-! ## Concrete fixtures used by the theorems -/

/-- A newform (mod 3) whose candidate kernel vector `[1, 0]` is already
normalised: processing succeeds and produces one reduction. -/
def fGood3 : NF 3 :=
  { label := "14.2.a.a", level := 14, weight := 2, dim := 2, char_order := 1,
    field_poly := some [-1, -1, 1], hecke_ring_cyclotomic_generator := 0,
    heckeFieldIsQQ := false, hecke_ring_character_values := [],
    candidates := [[1, 0]], ap := [[1, 0], [0, 1]] }

/-- A newform (mod 3) whose candidate kernel vector `[0, 1]` has first
coordinate 0: `reduction_maps` raises
`ValueError("reduction map defined by ... maps 1 to 0")` (line 131). -/
def fBad3 : NF 3 :=
  { label := "35.2.a.b", level := 35, weight := 2, dim := 2, char_order := 1,
    field_poly := some [-4, 1, 1], hecke_ring_cyclotomic_generator := 0,
    heckeFieldIsQQ := false, hecke_ring_character_values := [],
    candidates := [[0, 1]], ap := [[1, 0], [0, 1]] }

/-- Database stub for the sweep counterexample: level 1 holds the good form,
level 2 the bad one.  (`run` iterates `(k, N)` pairs; neither level is
divisible by `ell = 3`.) -/
def dbC4 : Nat × Nat → List (NF 3) :=
  fun t => if t.2 = 1 then [fGood3] else [fBad3]

/-- A weight-2, level-11 rational newform (`d = 1`, Hecke field `QQ`), with
the canonical `ap` prefix `1, 0, 1` stored as length-1 coordinate vectors,
considered at `ell = 2`. -/
def nf6 : NF 2 :=
  { label := "11.2.a.a", level := 11, weight := 2, dim := 1, char_order := 1,
    field_poly := some [0, 1], hecke_ring_cyclotomic_generator := 0,
    heckeFieldIsQQ := true, hecke_ring_character_values := [],
    candidates := [], ap := [[1], [0], [1]] }

/-! ## Claim C1 -/

/-- **C1.** The claim states that a candidate kernel-basis vector `v` with
`v[0] ∉ {0, 1}` is returned scaled by `v[0]⁻¹`, so that every returned vector
has first coordinate 1.  The code computes the rescaled copy but binds it to
the loop-local name `v` (line 133) without writing it back into `vv`, so the
candidate `[2, 1]` over `GF(3)` is returned unchanged, with first coordinate
`2 ∉ {0, 1}`; the `v[0] = 0` branch does raise, as documented. -/
theorem C1_rescaling_discarded :
    reduction_maps ([[2, 1]] : List (List (ZMod 3))) = Except.ok [[2, 1]]
    ∧ ((2 : ZMod 3) ≠ 1 ∧ (2 : ZMod 3) ≠ 0)
    ∧ reduction_maps ([[0, 1]] : List (List (ZMod 3))) = Except.error "reduction map maps 1 to 0" := by
  decide

/-! ## Claim C2 -/

/-- The structure matrices, mod 5, of the Hecke order `Z[a]` with
`a² = a + 1` (field `x² - x - 1`, discriminant 5), in the power basis
`betas = [1, a]`: `S5 i j t` is coordinate `t` of `betas[i] * betas[j]`, so
`S5 0` is the identity (asserted in line 110 of the source) and
`S5 1 = [[0, 1], [1, 1]]`. -/
def S5 : Fin 2 → Fin 2 → Fin 2 → ZMod 5 := ![![![1, 0], ![0, 1]], ![![0, 1], ![1, 1]]]

/-- An unnormalised kernel-basis candidate for the unique maximal ideal of
that algebra: `v5 = [2, 1] = 2 · [1, 3]`, where `[1, 3]` is the normalised
kernel vector (the homomorphism `a ↦ 3`). -/
def v5 : Fin 2 → ZMod 5 := ![2, 1]

/-- **C2.** Counterexample scenario over `GF(5)`, order `Z[a]`, `a² = a + 1`,
structure matrices `S5`.  The conjuncts state: (1) `S5 0` is the identity
matrix; (2) the pairing functional of `v5` has an ideal as kernel — i.e.
`v5` is a genuine kernel-basis vector for a codimension-1 (maximal) ideal of
the algebra, the situation of lines 114-117; (3) `v5` is not normalised
(`v5[0] = 2 ≠ 1`); (4) `reduction_maps` returns the candidate `[2, 1]`
unchanged (the rescaling computed in line 133 is discarded); and (5)-(7) the
returned vector is *not* a ring homomorphism under the `apply_red` pairing:
at `(i, j) = (0, 0)` pairing row 0 of `S5 0 = [1, 0]` gives `2 ≠ 2 · 2 = 4`,
and at `(i, j) = (1, 1)` pairing row 1 of `S5 1 = [1, 1]` gives
`3 ≠ 1 · 1 = 1`. -/
theorem C2_returned_vector_not_hom :
    (∀ j t, S5 0 j t = if j = t then 1 else 0)
    ∧ (∀ w : Fin 2 → ZMod 5, (∑ t, w t * v5 t) = 0 →
        ∀ j, (∑ t, (∑ i, w i * S5 i j t) * v5 t) = 0)
    ∧ v5 0 ≠ 1
    ∧ reduction_maps ([[2, 1]] : List (List (ZMod 5))) = Except.ok [[2, 1]]
    ∧ apply_red [1, 0] [(2 : ZMod 5), 1] = Except.ok 2
    ∧ (2 : ZMod 5) ≠ 2 * 2
    ∧ apply_red [1, 1] [(2 : ZMod 5), 1] = Except.ok 3
    ∧ (3 : ZMod 5) ≠ 1 * 1 := by
  decide

/-- The algebraic fact behind the intended rescaling of `reduction_maps`
(lines 119-135): if `S` are the structure matrices of the order mod `ell`
(with `S 0` the identity, as asserted in line 110), `v` is such that the
functional `w ↦ ∑ t, w t * v t` vanishes on an ideal that is exactly its
kernel (the situation of a kernel-basis vector of a codimension-1 maximal
ideal), and `v` is *normalized* so that `v 0 = 1`, then the functional is
multiplicative on basis elements: pairing with row `j` of `S i` (the
coordinates of `betas[i] * betas[j]`) gives `v i * v j`.  This is what fails
for an unnormalized vector, which the rescaling loop of `reduction_maps`
computes a normalisation of but then discards. -/
theorem normalized_kernel_functional_is_hom {n ell : Nat}
    (S : Fin (n + 1) → Fin (n + 1) → Fin (n + 1) → ZMod ell)
    (v : Fin (n + 1) → ZMod ell)
    (hS0 : ∀ j t, S 0 j t = if j = t then 1 else 0)
    (hv0 : v 0 = 1)
    (hIdeal : ∀ w : Fin (n + 1) → ZMod ell,
      (∑ t, w t * v t) = 0 → ∀ j, (∑ t, (∑ i, w i * S i j t) * v t) = 0) :
    ∀ i j, (∑ t, S i j t * v t) = v i * v j := by
  intro i j
  have hw0 : (∑ t, ((if t = i then 1 else 0) - v i * (if t = 0 then 1 else 0)) * v t) = 0 := by
    simp [sub_mul, Finset.sum_sub_distrib, mul_assoc, hv0]
  have h := hIdeal _ hw0 j
  have hexp : ∀ t, (∑ k, ((if k = i then 1 else 0) - v i * (if k = 0 then 1 else 0)) * S k j t)
      = S i j t - v i * S 0 j t := by
    intro t
    simp [sub_mul, Finset.sum_sub_distrib, mul_assoc]
  rw [Finset.sum_congr rfl (fun t _ => by rw [hexp t])] at h
  have hS0v : (∑ t, (if j = t then (1 : ZMod ell) else 0) * v t) = v j := by
    simp
  have hsplit : (∑ t, (S i j t - v i * S 0 j t) * v t)
      = (∑ t, S i j t * v t) - v i * (∑ t, S 0 j t * v t) := by
    simp [sub_mul, Finset.sum_sub_distrib, mul_assoc, Finset.mul_sum]
  rw [hsplit] at h
  have hS0j : (∑ t, S 0 j t * v t) = v j := by
    rw [Finset.sum_congr rfl (fun t _ => by rw [hS0 j t])]
    exact hS0v
  rw [hS0j] at h
  exact sub_eq_zero.mp h

/-! ## Claim C6 -/

/-- **C6.** For a newform whose Hecke field is `QQ`, `make_reductions`
(line 164) does return exactly one reduction map — but it is a *function*
(`lambda elt: Fl(QQ(elt))`), while `apply_red` (line 198) subscripts its
`red` argument (`red[0].parent()`), which raises `TypeError` on a function.
So reducing the coefficients through `reduce_ap_mod_ell` with the returned
map fails instead of producing `ap mod 2`. -/
theorem C6_rational_field_type_error :
    ∃ f, make_reductions nf6 = Except.ok [RedMap.fn f]
      ∧ reduce_ap_mod_ell nf6 (RedMap.fn f) =
          Except.error "TypeError: function object is not subscriptable" :=
  ⟨fun elt => (elt : ZMod 2), rfl, by decide⟩

/-! ## Claim C7 -/

/-- **C7.** When the prime `ell` divides the level `N`, `get_forms` returns
two empty lists at once (line 265-266), regardless of weight and of what the
database holds. -/
theorem C7_get_forms_skip {ell : Nat} (N k : Nat) (forms0 : List (NF ell))
    (hp : Nat.Prime ell) (hdvd : ell ∣ N) :
    get_forms N k forms0 = Except.ok ([], []) := by
  have h : N % ell = 0 := Nat.mod_eq_zero_of_dvd hdvd
  simp [get_forms, h]

/-- Witness for C7 at `ell = 2`, `N = 4`, `k = 2`, with a nonempty database. -/
theorem C7_get_forms_skip_witness :
    get_forms 4 2 [nf6] = Except.ok ([], []) :=
  C7_get_forms_skip 4 2 [nf6] (by decide) (by decide)

/-! ## Claim C4 -/

/-- **C4 counterexample.** The fatal `v[0] = 0` condition hit while processing
the single form of the first `(k, N)` triple aborts the whole sweep: `run`
returns the propagated `ValueError`, not the accumulated results — although
the second triple alone would have produced a processed form (second
conjunct). -/
theorem C4_sweep_abort_cex :
    run_sweep [(2, 2), (2, 1)] dbC4 =
      Except.error "reduction map maps 1 to 0"
    ∧ run_sweep [(2, 1)] dbC4 =
        Except.ok ([(fGood3, [RedMap.vec [1, 0]])], []) :=
  ⟨rfl, rfl⟩

/-- **C4 amended.** An uncaught fatal condition while processing any `(k, N)`
triple makes the whole sweep return that exception: no accumulated results
survive.  (`run` wraps no `try`/`except` around `get_forms`.) -/
theorem C4_error_aborts_sweep {ell : Nat} (triples : List (Nat × Nat))
    (db : Nat × Nat → List (NF ell))
    (h : ∃ t ∈ triples, ∃ e, get_forms t.2 t.1 (db t) = Except.error e) :
    ∃ e, run_sweep triples db = Except.error e := by
  induction triples with
  | nil => simp at h
  | cons t ts ih =>
    obtain ⟨u, hu, e, he⟩ := h
    cases hgf : get_forms t.2 t.1 (db t) with
    | error e2 => exact ⟨e2, by simp [run_sweep, hgf, Except.bind]⟩
    | ok pair =>
      have hu' : u ∈ ts := by
        rcases List.mem_cons.mp hu with hh | hh
        · subst hh; rw [hgf] at he; exact absurd he (by simp)
        · exact hh
      obtain ⟨e3, he3⟩ := ih ⟨u, hu', e, he⟩
      exact ⟨e3, by simp [run_sweep, hgf, he3, Except.bind, Except.map]⟩

/-- Witness for C4: the sweep consisting of the single bad triple errors. -/
theorem C4_error_aborts_sweep_witness :
    ∃ e, run_sweep [(2, 2)] dbC4 = Except.error e :=
  C4_error_aborts_sweep [(2, 2)] dbC4
    ⟨(2, 2), List.mem_singleton.mpr rfl, "reduction map maps 1 to 0", rfl⟩

/-! ## Claim C5: properties of `prime_to_m_part` -/

theorem prime_to_part_fuel_dvd : ∀ (fuel m ell : Nat), prime_to_part_fuel fuel m ell ∣ m := by
  intro fuel
  induction fuel with
  | zero => intro m ell; simp [prime_to_part_fuel]
  | succ f ih =>
    intro m ell
    by_cases h : 2 ≤ ell ∧ ell ∣ m ∧ 0 < m
    · simpa [prime_to_part_fuel, h] using (ih (m / ell) ell).trans (Nat.div_dvd_of_dvd h.2.1)
    · simp [prime_to_part_fuel, h]

theorem prime_to_part_fuel_coprime : ∀ (fuel m ell : Nat), m ≤ fuel → 0 < m →
    Nat.Prime ell → Nat.Coprime (prime_to_part_fuel fuel m ell) ell := by
  intro fuel
  induction fuel with
  | zero => intro m ell hle hm _; omega
  | succ f ih =>
    intro m ell hle hm hp
    by_cases h : 2 ≤ ell ∧ ell ∣ m ∧ 0 < m
    · have hstep : prime_to_part_fuel (f + 1) m ell = prime_to_part_fuel f (m / ell) ell := by
        simp [prime_to_part_fuel, h]
      rw [hstep]
      have hlt : m / ell < m := Nat.div_lt_self hm (by omega)
      have hpos : 0 < m / ell := Nat.div_pos (Nat.le_of_dvd hm h.2.1) (by omega)
      exact ih (m / ell) ell (by omega) hpos hp
    · have hnd : ¬ell ∣ m := fun hd => h ⟨hp.two_le, hd, hm⟩
      simpa [prime_to_part_fuel, h] using
        (Nat.coprime_comm.mp ((Nat.Prime.coprime_iff_not_dvd hp).mpr hnd))

theorem prime_to_part_fuel_greatest : ∀ (fuel m ell d : Nat), d ∣ m → Nat.Coprime d ell →
    d ∣ prime_to_part_fuel fuel m ell := by
  intro fuel
  induction fuel with
  | zero => intro m ell d hd _; simpa [prime_to_part_fuel] using hd
  | succ f ih =>
    intro m ell d hd hcop
    by_cases h : 2 ≤ ell ∧ ell ∣ m ∧ 0 < m
    · have hdd : d ∣ m / ell := by
        apply hcop.dvd_of_dvd_mul_left
        rw [Nat.mul_div_cancel' h.2.1]
        exact hd
      simpa [prime_to_part_fuel, h] using ih (m / ell) ell d hdd hcop
    · simpa [prime_to_part_fuel, h] using hd

theorem prime_to_m_part_one {ell : Nat} : prime_to_m_part 1 ell = 1 :=
  Nat.dvd_one.mp (prime_to_part_fuel_dvd 1 1 ell)

/-- **C5.** `char_order_valid m ell` holds precisely when the largest divisor
`m1` of `m` coprime to `ell` (the `ell`-prime-to part of `m`) divides
`ell - 1`; in particular it holds for `m = 1` at every prime `ell`, fails at
`(3, 2)`, and holds at `(1, 5)`. -/
theorem C5_char_order_valid_iff : ∀ m ell : Nat, 0 < m → Nat.Prime ell →
    ((char_order_valid m ell = true ↔
        ∃ m1, m1 ∣ m ∧ Nat.Coprime m1 ell ∧
          (∀ d, d ∣ m → Nat.Coprime d ell → d ∣ m1) ∧ m1 ∣ ell - 1)
      ∧ char_order_valid 1 ell = true)
    ∧ (char_order_valid 3 2 = false ∧ char_order_valid 1 5 = true) := by
  intro m ell hm hp
  refine ⟨⟨⟨fun h => ?_, fun h => ?_⟩, ?_⟩, by decide, by decide⟩
  · refine ⟨prime_to_m_part m ell, prime_to_part_fuel_dvd m m ell,
      prime_to_part_fuel_coprime m m ell le_rfl hm hp,
      fun d hdm hdcop => prime_to_part_fuel_greatest m m ell d hdm hdcop, ?_⟩
    simpa [char_order_valid] using h
  · obtain ⟨m1, hm1m, hm1cop, hmax, hdvd⟩ := h
    have h1 : prime_to_m_part m ell ∣ m1 :=
      hmax _ (prime_to_part_fuel_dvd m m ell) (prime_to_part_fuel_coprime m m ell le_rfl hm hp)
    have h2 : m1 ∣ prime_to_m_part m ell := prime_to_part_fuel_greatest m m ell m1 hm1m hm1cop
    have heq : prime_to_m_part m ell = m1 := Nat.dvd_antisymm h1 h2
    simp [char_order_valid, heq, hdvd]
  · simp [char_order_valid, prime_to_m_part_one]

/-- Witness for C5 at the claim's concrete inputs. -/
theorem C5_char_order_valid_iff_witness :
    char_order_valid 3 2 = false ∧ char_order_valid 1 5 = true :=
  (C5_char_order_valid_iff 3 2 (by decide) (by decide)).2

/-! ## Claim C9: `apply_red` truncates instead of failing -/

theorem zip_mul_sum_eq_dotTrunc {ell : Nat} :
    ∀ (coeffs : List Int) (red : List (ZMod ell)),
      ((coeffs.zip red).map (fun cr => (cr.1 : ZMod ell) * cr.2)).sum = dotTrunc coeffs red := by
  intro coeffs
  induction coeffs with
  | nil => intro red; cases red <;> simp [dotTrunc]
  | cons c cs ih =>
    intro red
    cases red with
    | nil => simp [dotTrunc]
    | cons r rs => simp [dotTrunc, ih]

/-- Shared helper: on a nonempty reduction vector, `apply_red` returns the dot
product of the common-length prefix. -/
theorem apply_red_eq_dotTrunc {ell : Nat} (coeffs : List Int) (red : List (ZMod ell))
    (h : red ≠ []) : apply_red coeffs red = Except.ok (dotTrunc coeffs red) := by
  cases red with
  | nil => exact absurd rfl h
  | cons r rs => simp [apply_red, zip_mul_sum_eq_dotTrunc]

/-- **C9 counterexample.** A call with `len(coeffs) = 3 ≠ 2 = len(red)` does
not fail: Python `zip` silently truncates, and `apply_red` returns the
`GF(2)` value `1·1 + 2·1 = 1`. -/
theorem C9_apply_red_mismatch_cex :
    apply_red [1, 2, 3] [(1 : ZMod 2), 1] = Except.ok 1
    ∧ ([1, 2, 3] : List Int).length ≠ [(1 : ZMod 2), 1].length := by
  decide

/-- **C9 amended.** `apply_red` is pure; on any nonempty `red` it returns
(without failing) the dot product of the two vectors truncated to their
common length, and its only failure mode is an empty `red`, where the
subscript `red[0]` raises `IndexError`. -/
theorem C9_apply_red_truncation (ell : Nat) (coeffs : List Int) (red : List (ZMod ell)) :
    (red ≠ [] → apply_red coeffs red = Except.ok (dotTrunc coeffs red))
    ∧ (red = [] →
        apply_red coeffs red = Except.error "IndexError: list index out of range") := by
  refine ⟨fun h => apply_red_eq_dotTrunc coeffs red h, fun h => ?_⟩
  subst h
  rfl

/-- Witness for C9 on a length-mismatched call. -/
theorem C9_apply_red_truncation_witness :
    apply_red [5, 7, 9] [(1 : ZMod 3), 1] = Except.ok 0 :=
  ((C9_apply_red_truncation 3 [5, 7, 9] [1, 1]).1 (by decide)).trans (by decide)

/-! ## Claim C3: multiplicity indexing in `run` -/

theorem compare_record_set_index (r s : NFRecord) (j : Nat) :
    compare_record r { s with index := j } = compare_record r s := rfl

theorem run_dedup_fst : ∀ (rs acc : List NFRecord) (nnf : Nat),
    (run_dedup rs acc nnf).1 = acc ++ assignIndices acc rs := by
  intro rs
  induction rs with
  | nil => intro acc nnf; simp [run_dedup, assignIndices]
  | cons r rs ih =>
    intro acc nnf
    simp only [run_dedup, assignIndices, ih]
    simp

theorem run_dedup_snd : ∀ (rs acc : List NFRecord) (nnf : Nat),
    (run_dedup rs acc nnf).2 =
      nnf + (assignIndices acc rs).countP (fun s => decide (s.index = 1)) := by
  intro rs
  induction rs with
  | nil => intro acc nnf; simp [run_dedup, assignIndices]
  | cons r rs ih =>
    intro acc nnf
    simp only [run_dedup, assignIndices, ih, List.countP_cons]
    by_cases hc : acc.countP (fun s => compare_record r s) = 0 <;> simp [hc] <;> omega

theorem assignIndices_getElem : ∀ (rs prev : List NFRecord) (i : Nat) (r : NFRecord),
    rs[i]? = some r →
    (assignIndices prev rs)[i]? =
      some { r with index := ((prev ++ rs.take i).countP (fun s => compare_record r s)) + 1 } := by
  intro rs
  induction rs with
  | nil => intro prev i r h; simp at h
  | cons x xs ih =>
    intro prev i r h
    cases i with
    | zero =>
      simp only [List.getElem?_cons_zero, Option.some.injEq] at h
      subst h
      simp [assignIndices]
    | succ i =>
      simp only [List.getElem?_cons_succ] at h
      have hx := ih (prev ++ [{ x with
        index := (prev.countP (fun s => compare_record x s)) + 1 }]) i r h
      simp only [assignIndices, List.getElem?_cons_succ]
      rw [hx]
      have hcount :
          ((prev ++ [{ x with index := (prev.countP (fun s => compare_record x s)) + 1 }])
              ++ xs.take i).countP (fun s => compare_record r s) =
          ((prev ++ (x :: xs).take (i + 1)).countP (fun s => compare_record r s)) := by
        simp [List.take_succ_cons, List.countP_append, List.countP_cons,
          compare_record_set_index]
      rw [hcount]

/-- The records used for the concrete `[A, B, A, A, C]` deduplication test:
`recA`, `recB`, `recC` carry pairwise different reduced-`ap` mappings at the
same `ell = 2`. -/
def recA : NFRecord :=
  { label := "11.2.a.a", N := 11, k := 2, d := 1, ap := [(2, 1), (3, 0)],
    chi_mod_ell := [], ell := 2, index := 0 }

def recB : NFRecord :=
  { label := "15.2.a.a", N := 15, k := 2, d := 1, ap := [(2, 0), (3, 0)],
    chi_mod_ell := [], ell := 2, index := 0 }

def recC : NFRecord :=
  { label := "17.2.a.a", N := 17, k := 2, d := 1, ap := [(2, 1), (3, 1)],
    chi_mod_ell := [], ell := 2, index := 0 }

/-- **C3.** In the accumulation loop of `run`: (1) the record appended for
the `i`-th element of the stream carries index one plus the number of earlier
records with an equal reduction (as judged by `compare_record`); (2) the
distinct count `nnf[ell]` equals the number of accumulated records whose
index is exactly 1; (3) for the append order `[A, B, A, A, C]` the indices
are `[1, 1, 2, 3, 1]` and the distinct count is 3. -/
theorem C3_dedup_indices :
    (∀ (rs : List NFRecord) (i : Nat) (r : NFRecord), rs[i]? = some r →
        ((run_dedup rs [] 0).1)[i]? =
          some { r with index := ((rs.take i).countP (fun s => compare_record r s)) + 1 })
    ∧ (∀ rs : List NFRecord,
        (run_dedup rs [] 0).2 = ((run_dedup rs [] 0).1).countP (fun s => decide (s.index = 1)))
    ∧ ((run_dedup [recA, recB, recA, recA, recC] [] 0).1.map (fun s => s.index) =
          [1, 1, 2, 3, 1]
        ∧ (run_dedup [recA, recB, recA, recA, recC] [] 0).2 = 3) := by
  refine ⟨fun rs i r h => ?_, fun rs => ?_, by decide, by decide⟩
  · rw [run_dedup_fst rs [] 0]
    simpa using assignIndices_getElem rs [] i r h
  · rw [run_dedup_snd rs [] 0, run_dedup_fst rs [] 0]
    simp

/-- Witness for C3: the fourth record of the `[A, B, A, A, C]` stream (the
third `A`) receives index 3. -/
theorem C3_dedup_indices_witness :
    ((run_dedup [recA, recB, recA, recA, recC] [] 0).1)[3]? =
      some { recA with index := 3 } :=
  (C3_dedup_indices.1 [recA, recB, recA, recA, recC] 3 recA (by decide)).trans (by decide)

/-! ## Claim C10: `reduce_ap_mod_ell` keys and `compare_record` equality -/

theorem next_prime_from_ge : ∀ (fuel k : Nat), k ≤ next_prime_from fuel k := by
  intro fuel
  induction fuel with
  | zero => intro k; exact le_rfl
  | succ f ih =>
    intro k
    by_cases hk : Nat.Prime k
    · simp [next_prime_from, hk]
    · simp only [next_prime_from, hk, if_false]
      exact (Nat.le_succ k).trans (ih (k + 1))

theorem next_prime_from_prime : ∀ (fuel k : Nat),
    (∃ p, k ≤ p ∧ p < k + fuel ∧ Nat.Prime p) → Nat.Prime (next_prime_from fuel k) := by
  intro fuel
  induction fuel with
  | zero => rintro k ⟨p, h1, h2, -⟩; omega
  | succ f ih =>
    rintro k ⟨p, h1, h2, hp⟩
    by_cases hk : Nat.Prime k
    · simpa [next_prime_from, hk] using hk
    · simp only [next_prime_from, hk, if_false]
      refine ih (k + 1) ⟨p, ?_, by omega, hp⟩
      rcases Nat.eq_or_lt_of_le h1 with h | h
      · exact absurd (h ▸ hp) hk
      · omega

theorem next_prime_from_min : ∀ (fuel k q : Nat), k ≤ q → Nat.Prime q →
    next_prime_from fuel k ≤ q := by
  intro fuel
  induction fuel with
  | zero => intro k q h _; exact h
  | succ f ih =>
    intro k q h hq
    by_cases hk : Nat.Prime k
    · simpa [next_prime_from, hk] using h
    · simp only [next_prime_from, hk, if_false]
      refine ih (k + 1) q ?_ hq
      rcases Nat.eq_or_lt_of_le h with h | h
      · exact absurd (h ▸ hq) hk
      · omega

/-- There is always a prime in `[k, k + (k + 3))`, so the fuel `k + 3` used by
`primes_from` suffices (Bertrand's postulate). -/
theorem exists_prime_in_window (k : Nat) : ∃ p, k ≤ p ∧ p < k + (k + 3) ∧ Nat.Prime p := by
  by_cases hk : k ≤ 2
  · exact ⟨2, by omega, by omega, by norm_num⟩
  · obtain ⟨p, hp, h1, h2⟩ := Nat.exists_prime_lt_and_le_two_mul (k - 1) (by omega)
    exact ⟨p, by omega, by omega, hp⟩

theorem primes_from_length : ∀ n k, (primes_from n k).length = n := by
  intro n
  induction n with
  | zero => intro k; rfl
  | succ m ih => intro k; simp [primes_from, ih]

theorem primes_from_props : ∀ n k,
    List.Pairwise (· < ·) (primes_from n k)
    ∧ (∀ p ∈ primes_from n k, k ≤ p ∧ Nat.Prime p) := by
  intro n
  induction n with
  | zero => intro k; simp [primes_from]
  | succ m ih =>
    intro k
    have hhead : Nat.Prime (next_prime_from (k + 3) k) :=
      next_prime_from_prime (k + 3) k (exists_prime_in_window k)
    have hge : k ≤ next_prime_from (k + 3) k := next_prime_from_ge (k + 3) k
    obtain ⟨hpair, hmem⟩ := ih (next_prime_from (k + 3) k + 1)
    refine ⟨?_, ?_⟩
    · simp only [primes_from]
      exact List.pairwise_cons.mpr ⟨fun q hq => by have := (hmem q hq).1; omega, hpair⟩
    · simp only [primes_from, List.mem_cons]
      rintro p (rfl | hp)
      · exact ⟨hge, hhead⟩
      · have := hmem p hp
        exact ⟨by omega, this.2⟩

theorem primes_from_complete : ∀ n k q p, Nat.Prime q → k ≤ q →
    p ∈ primes_from n k → q < p → q ∈ primes_from n k := by
  intro n
  induction n with
  | zero => intro k q p _ _ hp _; simp [primes_from] at hp
  | succ m ih =>
    intro k q p hq hkq hp hqp
    have hmin : next_prime_from (k + 3) k ≤ q := next_prime_from_min (k + 3) k q hkq hq
    simp only [primes_from, List.mem_cons] at hp ⊢
    rcases hp with rfl | hp
    · omega
    · rcases Nat.eq_or_lt_of_le hmin with h | h
      · exact Or.inl h.symm
      · exact Or.inr (ih (next_prime_from (k + 3) k + 1) q p hq (by omega) hp hqp)

theorem mapExcept_reduce_ap {ell : Nat} (v : List (ZMod ell)) (hv : v ≠ []) :
    ∀ (ps : List Nat) (as : List (List Int)),
      mapExcept (fun pa => (apply_red_dyn pa.2 (RedMap.vec v)).map (fun x => (pa.1, x)))
          (ps.zip as)
        = Except.ok (ps.zip (as.map (fun a => dotTrunc a v))) := by
  intro ps
  induction ps with
  | nil => intro as; rfl
  | cons p ps ih =>
    intro as
    cases as with
    | nil => rfl
    | cons a as =>
      rw [show (p :: ps).zip (a :: as) = (p, a) :: ps.zip as from rfl]
      simp only [mapExcept]
      rw [show apply_red_dyn a (RedMap.vec v) = apply_red a v from rfl,
        apply_red_eq_dotTrunc a v hv, ih as]
      rfl

/-- **C10.** (1) On a vector reduction map, `reduce_ap_mod_ell` succeeds and
returns the association list pairing the first `len(nf.ap)` primes, in order,
with `apply_red` of the corresponding coefficient vectors.  (2)
`primes_first_n n` really is the list of the first `n` primes: length `n`,
strictly ascending, all prime, and downward closed among primes `≥ 2`.  (3)
`compare_record` holds exactly on equal `ell` and equal whole `ap` dicts.
(4) Two `reduce_ap_mod_ell` outputs agree exactly when the two forms store
the same number of `ap` and the reduced values agree at every prime key. -/
theorem C10_reduce_ap_keys_and_compare :
    (∀ (ell : Nat) (nf : NF ell) (v : List (ZMod ell)), v ≠ [] →
        reduce_ap_mod_ell nf (RedMap.vec v) =
          Except.ok ((primes_first_n nf.ap.length).zip (nf.ap.map (fun a => dotTrunc a v))))
    ∧ (∀ n : Nat, (primes_first_n n).length = n
        ∧ List.Pairwise (· < ·) (primes_first_n n)
        ∧ (∀ p ∈ primes_first_n n, Nat.Prime p)
        ∧ (∀ q p, Nat.Prime q → p ∈ primes_first_n n → q < p → q ∈ primes_first_n n))
    ∧ (∀ r1 r2 : NFRecord, compare_record r1 r2 = true ↔ r1.ell = r2.ell ∧ r1.ap = r2.ap)
    ∧ (∀ (ell : Nat) (nf1 nf2 : NF ell) (v1 v2 : List (ZMod ell)), v1 ≠ [] → v2 ≠ [] →
        (reduce_ap_mod_ell nf1 (RedMap.vec v1) = reduce_ap_mod_ell nf2 (RedMap.vec v2) ↔
          (nf1.ap.length = nf2.ap.length
            ∧ nf1.ap.map (fun a => dotTrunc a v1) = nf2.ap.map (fun a => dotTrunc a v2)))) := by
  have part1 : ∀ (ell : Nat) (nf : NF ell) (v : List (ZMod ell)), v ≠ [] →
      reduce_ap_mod_ell nf (RedMap.vec v) =
        Except.ok ((primes_first_n nf.ap.length).zip (nf.ap.map (fun a => dotTrunc a v))) :=
    fun ell nf v hv => mapExcept_reduce_ap v hv (primes_first_n nf.ap.length) nf.ap
  refine ⟨part1, ?_, ?_, ?_⟩
  · intro n
    refine ⟨primes_from_length n 2, (primes_from_props n 2).1,
      fun p hp => ((primes_from_props n 2).2 p hp).2, fun q p hq hp hqp => ?_⟩
    exact primes_from_complete n 2 q p hq hq.two_le hp hqp
  · intro r1 r2
    simp [compare_record]
  · intro ell nf1 nf2 v1 v2 hv1 hv2
    rw [part1 ell nf1 v1 hv1, part1 ell nf2 v2 hv2]
    have hlen1 : (primes_first_n nf1.ap.length).length = (nf1.ap.map (fun a => dotTrunc a v1)).length := by
      simp [primes_from_length, primes_first_n]
    have hlen2 : (primes_first_n nf2.ap.length).length = (nf2.ap.map (fun a => dotTrunc a v2)).length := by
      simp [primes_from_length, primes_first_n]
    constructor
    · intro h
      have hz := Except.ok.inj h
      have hlval : nf1.ap.length = nf2.ap.length := by
        have := congrArg List.length hz
        simp only [List.length_zip, List.length_map, primes_first_n, primes_from_length,
          Nat.min_self] at this
        exact this
      refine ⟨hlval, ?_⟩
      have hs1 := List.map_snd_zip (primes_first_n nf1.ap.length)
        (nf1.ap.map (fun a => dotTrunc a v1)) (le_of_eq hlen1.symm)
      have hs2 := List.map_snd_zip (primes_first_n nf2.ap.length)
        (nf2.ap.map (fun a => dotTrunc a v2)) (le_of_eq hlen2.symm)
      calc nf1.ap.map (fun a => dotTrunc a v1)
          = _ := hs1.symm
        _ = _ := congrArg (List.map Prod.snd) hz
        _ = nf2.ap.map (fun a => dotTrunc a v2) := hs2
    · rintro ⟨hlval, hvals⟩
      rw [hlval, hvals]

/-- Witness for C10 part (1): the rational form `nf6` with the vector map
`[1]` reduces to `ap mod 2` at the primes `2, 3, 5`. -/
theorem C10_reduce_ap_keys_and_compare_witness :
    reduce_ap_mod_ell nf6 (RedMap.vec [1]) = Except.ok [(2, 1), (3, 0), (5, 1)] :=
  (C10_reduce_ap_keys_and_compare.1 2 nf6 [1] (by decide)).trans (by decide)

/-! ## Claim C8: the serialized record format -/

theorem sortAsc_of_sorted : ∀ l : List Nat, List.Pairwise (· < ·) l → sortAsc l = l := by
  intro l
  induction l with
  | nil => intro _; rfl
  | cons x xs ih =>
    intro hp
    have hx : sortAsc (x :: xs) = insertAsc x (sortAsc xs) := rfl
    rw [hx, ih hp.of_cons]
    cases xs with
    | nil => rfl
    | cons y ys =>
      have hxy : x < y := (List.pairwise_cons.mp hp).1 y (by simp)
      simp [insertAsc, Nat.le_of_lt hxy]

theorem filterMap_dictLookup : ∀ l : List (Nat × Nat), (l.map Prod.fst).Nodup →
    (l.map Prod.fst).filterMap (fun p => dictLookup p l) = l.map Prod.snd := by
  intro l
  induction l with
  | nil => intro _; rfl
  | cons kv t ih =>
    intro hnodup
    have hk : kv.1 ∉ t.map Prod.fst := (List.nodup_cons.mp (by simpa using hnodup)).1
    have hcongr : (t.map Prod.fst).filterMap (fun p => dictLookup p (kv :: t)) =
        (t.map Prod.fst).filterMap (fun p => dictLookup p t) := by
      apply List.filterMap_congr
      intro p hp
      have hne : ¬kv.1 = p := fun h => hk (h ▸ hp)
      simp [dictLookup, hne]
    simp only [List.map_cons, List.filterMap_cons]
    rw [show dictLookup kv.1 (kv :: t) = some kv.2 from by simp [dictLookup]]
    rw [hcongr, ih (List.nodup_cons.mp (by simpa using hnodup)).2]

/-- **C8.** For a record whose label splits into four dot-separated parts and
whose `ap` dict has (as `reduce_ap_mod_ell` guarantees) strictly ascending
prime keys, `nf_to_string` produces exactly the colon-joined fields
`label : N : k : c : id : dim : ell : index : chi_mod_ell : ap`, where the
`ap` field is the comma-joined list of values in ascending key order,
truncated to at most `nap` entries when a positive `nap` is given. -/
theorem C8_nf_to_string_format (r : NFRecord) (nA nB nC nD : String) (nap : Option Nat)
    (hsplit : splitOnDot r.label = [nA, nB, nC, nD])
    (hsorted : List.Pairwise (· < ·) (r.ap.map Prod.fst))
    (hnap : ∀ m, nap = some m → 0 < m) :
    nf_to_string r nap =
      Except.ok (joinSep ":"
        [r.label, nA, nB, nC, nD, Nat.repr r.d, Nat.repr r.ell, Nat.repr r.index,
          chiString r.chi_mod_ell,
          joinSep ","
            (((r.ap.map Prod.snd).take
                (match nap with | none => r.ap.length | some m => m)).map Nat.repr)]) := by
  have hnodup : (r.ap.map Prod.fst).Nodup :=
    List.Pairwise.imp (fun h => Nat.ne_of_lt h) hsorted
  have hvals : (sortAsc (r.ap.map Prod.fst)).filterMap (fun p => dictLookup p r.ap) =
      r.ap.map Prod.snd := by
    rw [sortAsc_of_sorted _ hsorted]
    exact filterMap_dictLookup r.ap hnodup
  unfold nf_to_string
  rw [hsplit]
  cases nap with
  | none =>
    simp only [hvals]
    rw [show (r.ap.map Prod.snd).take r.ap.length = r.ap.map Prod.snd from by
      rw [← List.length_map r.ap Prod.snd]; exact List.take_length _]
  | some m =>
    have hm : 0 < m := hnap m rfl
    simp only [hvals]
    by_cases hlt : m < (r.ap.map Prod.snd).length
    · rw [if_pos ⟨by omega, hlt⟩]
    · rw [if_neg (fun hcon => hlt hcon.2)]
      rw [List.take_of_length_le (by omega)]

/-- The record of the claim's concrete example: label `11.2.a.a`, trivial
character, `ap = 1, 0, 1` at the primes `2, 3, 5`, `ell = 2`, `index = 1`. -/
def rec8 : NFRecord :=
  { label := "11.2.a.a", N := 11, k := 2, d := 1, ap := [(2, 1), (3, 0), (5, 1)],
    chi_mod_ell := [], ell := 2, index := 1 }

/-- Witness for C8: the concrete record serializes to exactly the claimed
line. -/
theorem C8_nf_to_string_format_witness :
    nf_to_string rec8 none = Except.ok "11.2.a.a:11:2:a:a:1:2:1:[]:1,0,1" :=
  (C8_nf_to_string_format rec8 "11" "2" "a" "a" none (by decide) (by decide)
    (fun m h => nomatch h)).trans (by decide)

